import Mathlib

set_option maxRecDepth 1000000
set_option maxHeartbeats 2000000

/-!
Shallow embedding of the AlgoTrade-Strategizer backtest core
(`src/strategies/backtest_ma.py` and `src/strategies/backtest_ma_portfolio.py`).

Modelling conventions:
* A pandas float series is a `List (Option ℚ)`: `none` models an IEEE
  non-finite entry (`NaN`, and in the few places where the source can
  produce `±inf` — a division by zero — that non-finite result is also
  modelled as `none`, i.e. "undefined").  Comparisons against `NaN`
  are `False` in the source, which `nanGT`/`nanLT`/`nanLE` reproduce.
* Exact rational arithmetic stands in for IEEE doubles; the claims under
  study are about the exact quantities the code manipulates, not about
  rounding.
* `np.power` with a real exponent and `np.sqrt` are modelled with
  `Real.rpow` / `Real.sqrt` on ℝ; `np.power` applied to a negative base
  with a non-integer exponent yields `NaN` in the source, modelled by the
  definedness guard in `annualizedO`.
* The two source files contain byte-identical copies of
  `calculate_moving_averages` and `generate_signals`; they are embedded
  once and used for both variants.
-/

/-- NaN-propagating addition on pandas float scalars. -/
def oadd : Option ℚ → Option ℚ → Option ℚ
  | some a, some b => some (a + b)
  | _, _ => none

/-- NaN-propagating subtraction on pandas float scalars. -/
def osub : Option ℚ → Option ℚ → Option ℚ
  | some a, some b => some (a - b)
  | _, _ => none

/-- NaN-propagating multiplication on pandas float scalars. -/
def omul : Option ℚ → Option ℚ → Option ℚ
  | some a, some b => some (a * b)
  | _, _ => none

/-- Division on pandas float scalars: `NaN` operands propagate, and a zero
divisor produces a non-finite IEEE result (`±inf` or `NaN`), modelled as
undefined. -/
def odiv : Option ℚ → Option ℚ → Option ℚ
  | some a, some b => if b = 0 then none else some (a / b)
  | _, _ => none

/-- `a > b` on floats: `False` whenever either operand is `NaN`
(the comparison semantics the crossover test in `generate_signals` relies
on). -/
def nanGT : Option ℚ → Option ℚ → Bool
  | some a, some b => a > b
  | _, _ => false

/-- `a < b` on floats: `False` whenever either operand is `NaN`. -/
def nanLT : Option ℚ → Option ℚ → Bool
  | some a, some b => a < b
  | _, _ => false

/-- `a ≤ b` on floats: `False` whenever either operand is `NaN`
(the `cost <= capital` test in `simulate_trades`). -/
def nanLE : Option ℚ → Option ℚ → Bool
  | some a, some b => a ≤ b
  | _, _ => false

/-- `Series.dropna()`: the defined entries, in order. -/
def dropna {α : Type} (xs : List (Option α)) : List α := xs.filterMap id

/-- Entry `i` of a float column (`NaN` past the end, which no claim
exercises). -/
def atO {α : Type} (xs : List (Option α)) (i : ℕ) : Option α := (xs[i]?).getD none

/-- The window of `w` closes ending at bar `i` (bars `i-w+1 … i`). -/
def windowAt (w : ℕ) (closes : List ℚ) (i : ℕ) : List ℚ :=
  (closes.take (i + 1)).drop (i + 1 - w)

/-- `stock_data['close'].rolling(window=w).mean()` at bar `i`
(`calculate_moving_averages`, identical in both source files): defined
only once the window is fully populated, i.e. `w ≤ i+1`, and then the
arithmetic mean of the `w` closes ending at `i`. -/
def sma (w : ℕ) (closes : List ℚ) (i : ℕ) : Option ℚ :=
  if w ≤ i + 1 ∧ i < closes.length then
    some ((windowAt w closes i).sum / (w : ℚ))
  else none

/-- The `SMA_w` column attached to the frame: one rolling-mean entry per
bar. -/
def smaCol (w : ℕ) (closes : List ℚ) : List (Option ℚ) :=
  (List.range closes.length).map (sma w closes)

/-- The body of the loop in `generate_signals` (identical in both source
files), reading the two `SMA` columns: `+1` on an upward cross, `-1` on a
downward cross, else `0`; bar `0` is never assigned.  A comparison
involving an undefined average is `False`. -/
def signalFromCols (s20 s50 : List (Option ℚ)) (i : ℕ) : Int :=
  if i = 0 then 0
  else if nanGT (atO s20 i) (atO s50 i)
        && nanLT (atO s20 (i - 1)) (atO s50 (i - 1)) then 1
  else if nanLT (atO s20 i) (atO s50 i)
        && nanGT (atO s20 (i - 1)) (atO s50 (i - 1)) then -1
  else 0

/-- The `Signal` column of `generate_signals` as a function of the raw
closes, the columns being those of `calculate_moving_averages`. -/
def signalOf (closes : List ℚ) (i : ℕ) : Int :=
  signalFromCols (smaCol 20 closes) (smaCol 50 closes) i

/-- The `Position` column of the simple variant (`update_position`):
starts flat, goes long on a buy signal, flat on a sell signal, and
otherwise persists. -/
def position (closes : List ℚ) : ℕ → Int
  | 0 => 0
  | i + 1 =>
    if signalOf closes (i + 1) = 1 then 1
    else if signalOf closes (i + 1) = -1 then 0
    else position closes i

/-!  ### Returns and performance metrics (simple variant, `backtest_ma.py`) -/

/-- `Series.pct_change()` on a float column: `NaN` at bar `0`, else
`x[i]/x[i-1] - 1` (non-finite when the previous value is zero). -/
def pctChangeO (xs : List (Option ℚ)) : List (Option ℚ) :=
  (List.range xs.length).map fun i =>
    if i = 0 then none else osub (odiv (atO xs i) (atO xs (i - 1))) (some 1)

/-- `stock_data['close'].pct_change()` (the `Stock Returns` column of the
simple variant and the `Daily Returns` column of the enhanced one). -/
def pctChangeQ (closes : List ℚ) : List (Option ℚ) :=
  pctChangeO (closes.map some)

/-- `stock_data['Position'].shift(1)` at bar `i`. -/
def positionShiftAt (closes : List ℚ) (i : ℕ) : Option ℚ :=
  if i = 0 then none else some ((position closes (i - 1) : ℤ) : ℚ)

/-- The `Strategy Returns` column (`calculate_returns`):
`Stock Returns * Position.shift(1)`. -/
def stratReturnsCol (closes : List ℚ) : List (Option ℚ) :=
  (List.range closes.length).map fun i =>
    omul (atO (pctChangeQ closes) i) (positionShiftAt closes i)

/-- `(1 + series).prod()`: pandas adds `1` entrywise (keeping `NaN`s) and
`prod` skips the `NaN`s. -/
def prodSkipNA : List (Option ℚ) → ℚ
  | [] => 1
  | none :: xs => prodSkipNA xs
  | some r :: xs => (1 + r) * prodSkipNA xs

/-- The product `∏ (1+r)` over an already-defined return list. -/
def prodOnePlus (R : List ℚ) : ℚ := (R.map fun r => 1 + r).prod

/-- `series.std()` squared: the sample variance (`ddof = 1`) of the
defined entries; `NaN` when fewer than two entries are defined. -/
def varSkipNA (xs : List (Option ℚ)) : Option ℚ :=
  let d := dropna xs
  if d.length < 2 then none
  else some ((d.map fun x => (x - d.sum / (d.length : ℚ)) ^ 2).sum / ((d.length : ℚ) - 1))

/-- `np.power((1 + rs).prod(), 6125 / n) - 1`, the annualized-return
formula shared by both metrics calculators (`6125 = 245 * 25`).  `n = 0`
raises `ZeroDivisionError` in the source (undefined), and `np.power` of a
negative base with a non-integer exponent is `NaN`. -/
noncomputable def annualizedO (rs : List (Option ℚ)) (n : ℕ) : Option ℝ :=
  if n = 0 then none
  else if 0 ≤ prodSkipNA rs ∨ 6125 % n = 0 then
    some (((prodSkipNA rs : ℚ) : ℝ) ^ ((6125 : ℝ) / (n : ℝ)) - 1)
  else none

/-- `series.std() * np.sqrt(245 * 25)`: the annualized volatility of a
return column. -/
noncomputable def volOf (rs : List (Option ℚ)) : Option ℝ :=
  (varSkipNA rs).map fun v => Real.sqrt ((v : ℚ) : ℝ) * Real.sqrt 6125

/-- `(annualized - 0.06) / volatility`: non-finite (undefined) when the
volatility is zero, `NaN` when either input is undefined. -/
noncomputable def sharpeOf (ann vol : Option ℝ) : Option ℝ :=
  match ann, vol with
  | some a, some v => if v = 0 then none else some ((a - 0.06) / v)
  | _, _ => none

/-- `series.cumprod()` with pandas `NaN` semantics: an undefined entry
stays undefined but the running product carries past it. -/
def cumprodFrom : ℚ → List (Option ℚ) → List (Option ℚ)
  | _, [] => []
  | p, none :: xs => none :: cumprodFrom p xs
  | p, some v :: xs => some (p * v) :: cumprodFrom (p * v) xs

/-- `(1 + rs).cumprod()`, the cumulative-return column of
`calculate_returns`. -/
def cumOnePlus (rs : List (Option ℚ)) : List (Option ℚ) :=
  cumprodFrom 1 (rs.map fun x => x.map fun r => 1 + r)

/-- `series.cummax()` with pandas `NaN` semantics: an undefined entry
stays undefined but the running maximum carries past it. -/
def cummaxFrom : Option ℚ → List (Option ℚ) → List (Option ℚ)
  | _, [] => []
  | m, none :: xs => none :: cummaxFrom m xs
  | m, some v :: xs =>
    let m2 := match m with | none => v | some m0 => max m0 v
    some m2 :: cummaxFrom (some m2) xs

/-- `series.cummax()` (the `rolling_max` of the drawdown computation). -/
def cummaxO (xs : List (Option ℚ)) : List (Option ℚ) := cummaxFrom none xs

/-- `series.min()`: the minimum of the defined entries, `NaN` when there
is none. -/
def minSkipNA (xs : List (Option ℚ)) : Option ℚ := (dropna xs).min?

/-- The maximum-drawdown computation of both metrics calculators:
`(V / V.cummax() - 1).min()`. -/
def maxDrawdownOf (V : List (Option ℚ)) : Option ℚ :=
  minSkipNA ((V.zip (cummaxO V)).map fun p => osub (odiv p.1 p.2) (some 1))

/-- The record returned by `calculate_performance_metrics` of
`backtest_ma.py`. -/
structure SimpleMetrics where
  annStrategy : Option ℝ
  annStock : Option ℝ
  stratVol : Option ℝ
  stockVol : Option ℝ
  sharpe : Option ℝ
  maxDD : Option ℚ

/-- `calculate_performance_metrics` of `backtest_ma.py`: note that the
annualization exponent divides by `len(stock_data)` — the full column
length — not by the number of defined returns. -/
noncomputable def calcSimpleMetrics (closes : List ℚ) : SimpleMetrics :=
  let n := closes.length
  let stratR := stratReturnsCol closes
  let stockR := pctChangeQ closes
  let ann := annualizedO stratR n
  let vol := volOf stratR
  { annStrategy := ann
    annStock := annualizedO stockR n
    stratVol := vol
    stockVol := volOf stockR
    sharpe := sharpeOf ann vol
    maxDD := maxDrawdownOf (cumOnePlus stratR) }

/-!  ### Volatility, position sizing, trade simulation
(enhanced variant, `backtest_ma_portfolio.py`) -/

/-- `Daily Returns.rolling(window=20).std() ** 2` at bar `i`: the sample
variance of the 20 trailing returns, defined only when the window is full
and contains no `NaN`. -/
def rollingVar20 (rets : List (Option ℚ)) (i : ℕ) : Option ℚ :=
  if 19 ≤ i ∧ i < rets.length then
    let w := (rets.take (i + 1)).drop (i + 1 - 20)
    if w.all Option.isSome then varSkipNA w else none
  else none

/-- The `Volatility` column of `calculate_volatility`:
`rolling(20).std() * np.sqrt(245 * 25)`. -/
noncomputable def volatilityColFrom (dr : List (Option ℚ)) : List (Option ℝ) :=
  (List.range dr.length).map fun i =>
    (rollingVar20 dr i).map fun v => Real.sqrt ((v : ℚ) : ℝ) * Real.sqrt 6125

/-- `series.max()` on a float column: skips `NaN`s, `NaN` when nothing is
defined. -/
noncomputable def maxSkipNAR (xs : List (Option ℝ)) : Option ℝ := (dropna xs).max?

/-- The scalar `Position Size` of `adjust_position_size`:
`initial_capital * fixed_fraction * ((1 / Volatility.iloc[-1]) / Volatility.max())`.
Undefined (non-finite) when the most recent volatility is `NaN` or zero,
or when the maximum is `NaN` or zero. -/
noncomputable def positionSizeFrom (vcol : List (Option ℝ)) (capital frac : ℚ) : Option ℝ :=
  match atO vcol (vcol.length - 1) with
  | none => none
  | some cv =>
    if cv = 0 then none
    else match maxSkipNAR vcol with
      | none => none
      | some m => if m = 0 then none else some ((capital : ℝ) * (frac : ℝ) * (1 / cv / m))

/-- The sizer applied to a raw close series (volatility window 20,
as hard-coded in `adjust_position_size`). -/
noncomputable def positionSizeOf (closes : List ℚ) (capital frac : ℚ) : Option ℝ :=
  positionSizeFrom (volatilityColFrom (pctChangeQ closes)) capital frac

/-- One iteration of the `simulate_trades` loop at bar `i`, mapping
`(capital, Invested Capital[i-1])` to `(capital, Invested Capital[i])`.
On a buy: `num_shares = capital / close[i]`, `cost = num_shares * close[i]`,
executed only when `cost <= capital` (false on `NaN`).  On a sell:
`capital += Invested Capital[i-1]` (the raw, pre-`ffill` value), and the
invested capital is zeroed.  Otherwise the invested-capital cell is left
unset (`NaN`). -/
def simStep (sig : ℕ → ℤ) (close : ℕ → ℚ) (st : Option ℚ × Option ℚ) (i : ℕ) :
    Option ℚ × Option ℚ :=
  if sig i = 1 then
    let shares := odiv st.1 (some (close i))
    let cost := omul shares (some (close i))
    if nanLE cost st.1 then (osub st.1 cost, cost) else (st.1, none)
  else if sig i = -1 then (oadd st.1 st.2, some 0)
  else (st.1, none)

/-- The state of `simulate_trades` after bar `i`:
`(capital, Invested Capital[i])`, seeded with
`(initial_capital, 0)` at bar `0`. -/
def simStateAt (sig : ℕ → ℤ) (close : ℕ → ℚ) (cap0 : ℚ) : ℕ → Option ℚ × Option ℚ
  | 0 => (some cap0, some 0)
  | i + 1 => simStep sig close (simStateAt sig close cap0 i) (i + 1)

/-- The `Portfolio Value` cell written at bar `i`:
`capital + (Invested Capital[i] if notna else 0)` — computed with the
*raw* invested capital, before the forward fill. -/
def pvAt (sig : ℕ → ℤ) (close : ℕ → ℚ) (cap0 : ℚ) (i : ℕ) : Option ℚ :=
  oadd (simStateAt sig close cap0 i).1 (some ((simStateAt sig close cap0 i).2.getD 0))

/-- `Series.ffill()`: an unset cell inherits the most recent defined
value before it (leading unset cells stay unset). -/
def ffillFrom {α : Type} : Option α → List (Option α) → List (Option α)
  | _, [] => []
  | prev, none :: xs => prev :: ffillFrom prev xs
  | _, some v :: xs => some v :: ffillFrom (some v) xs

/-- The dataframe of one instrument's run: the `close` input column plus
the derived columns each pipeline stage attaches.  `posSize` is the
scalar that `adjust_position_size` broadcasts into the `Position Size`
column. -/
structure StockData where
  close : List ℚ
  smaShort : List (Option ℚ) := []
  smaLong : List (Option ℚ) := []
  signal : List ℤ := []
  dailyReturns : List (Option ℚ) := []
  volatility : List (Option ℝ) := []
  posSize : Option ℝ := none
  investedRaw : List (Option ℚ) := []
  invested : List (Option ℚ) := []
  portfolioValue : List (Option ℚ) := []
  portfolioRet : List (Option ℚ) := []

/-- `calculate_moving_averages` as a pipeline stage. -/
def calculateMovingAverages (df : StockData) : StockData :=
  { df with smaShort := smaCol 20 df.close, smaLong := smaCol 50 df.close }

/-- `generate_signals` as a pipeline stage, reading the two SMA columns. -/
def generateSignals (df : StockData) : StockData :=
  { df with signal :=
      (List.range df.close.length).map (signalFromCols df.smaShort df.smaLong) }

/-- `adjust_position_size` as a pipeline stage: attaches `Daily Returns`,
`Volatility` and the scalar `Position Size`; it reads only the `close`
column and touches no other column. -/
noncomputable def adjustPositionSize (df : StockData) (capital frac : ℚ) : StockData :=
  let dr := pctChangeQ df.close
  { df with dailyReturns := dr
            volatility := volatilityColFrom dr
            posSize := positionSizeFrom (volatilityColFrom dr) capital frac }

/-- `simulate_trades` as a pipeline stage: reads only the `Signal` and
`close` columns and attaches the raw and forward-filled
`Invested Capital`, `Portfolio Value` and `Portfolio Returns` columns. -/
def simulateTrades (df : StockData) (cap0 : ℚ) : StockData :=
  let sig := fun i => (df.signal[i]?).getD 0
  let cls := fun i => (df.close[i]?).getD 0
  let n := df.close.length
  { df with investedRaw := (List.range n).map fun i => (simStateAt sig cls cap0 i).2
            invested := ffillFrom none ((List.range n).map fun i => (simStateAt sig cls cap0 i).2)
            portfolioValue := (List.range n).map (pvAt sig cls cap0)
            portfolioRet := pctChangeO ((List.range n).map (pvAt sig cls cap0)) }

/-- The cash (the loop variable `capital` of `simulate_trades`) after each
bar; the source keeps it in a local rather than a column. -/
def simCashCol (df : StockData) (cap0 : ℚ) : List (Option ℚ) :=
  (List.range df.close.length).map fun i =>
    (simStateAt (fun j => (df.signal[j]?).getD 0) (fun j => (df.close[j]?).getD 0) cap0 i).1

/-- The annualized portfolio return of the enhanced-variant
`calculate_performance_metrics`: computed over `Portfolio Returns.dropna()`,
whose length is also the exponent divisor. -/
noncomputable def annPortfolioOf (rs : List (Option ℚ)) : Option ℝ :=
  annualizedO rs (dropna rs).length

/-- The record returned by the enhanced-variant
`calculate_performance_metrics` (plus the `Final Portfolio Value` that
`update_performance_metrics_with_portfolio` appends). -/
structure PortfolioMetrics where
  annPortfolio : Option ℝ
  vol : Option ℝ
  sharpe : Option ℝ
  maxDD : Option ℚ
  finalPV : Option ℚ

/-- The enhanced-variant `calculate_performance_metrics` applied to the
simulated frame. -/
noncomputable def calcPortfolioMetrics (df : StockData) : PortfolioMetrics :=
  let ann := annPortfolioOf df.portfolioRet
  let vol := volOf df.portfolioRet
  { annPortfolio := ann
    vol := vol
    sharpe := sharpeOf ann vol
    maxDD := maxDrawdownOf df.portfolioValue
    finalPV := atO df.portfolioValue (df.portfolioValue.length - 1) }

/-- `run_strategy_with_enhancements`: the enhanced pipeline from raw
closes to the simulated frame. -/
noncomputable def runEnhanced (closes : List ℚ) (cap0 : ℚ) : StockData :=
  simulateTrades
    (adjustPositionSize (generateSignals (calculateMovingAverages { close := closes })) cap0 (1 / 10))
    cap0

/-- The enhanced pipeline with the position-sizing stage omitted
entirely (no `Position Size` is ever computed). -/
def runEnhancedNoSizing (closes : List ℚ) (cap0 : ℚ) : StockData :=
  simulateTrades (generateSignals (calculateMovingAverages { close := closes })) cap0

/-- Modelled from the spec (§4.6): the annualized-return formula
`(∏(1+r) for r in R) ^ (bars_per_year / |R|) − 1` with an explicit
divisor `n`, the real power being undefined for a negative base and
non-integer exponent, and `n = 0` being the fatal degenerate case. -/
noncomputable def specAnnualizedDiv (R : List ℚ) (n : ℕ) : Option ℝ :=
  if n = 0 then none
  else if 0 ≤ prodOnePlus R ∨ 6125 % n = 0 then
    some (((prodOnePlus R : ℚ) : ℝ) ^ ((6125 : ℝ) / (n : ℝ)) - 1)
  else none

/-- Modelled from the spec (§4.6): the annualized return of a defined
return sequence `R`, with `|R|` itself as the divisor. -/
noncomputable def specAnnualized (R : List ℚ) : Option ℝ :=
  specAnnualizedDiv R R.length

/-!  ### Concrete input series used by witnesses and counterexamples -/

/-- A 72-bar close series: 30 bars at 100, 20 at 90, a jump to 300, then
21 flat bars at 300.  It produces exactly one buy signal, at bar 50, and
its last 20 daily returns are all zero (so the final rolling volatility
is zero). -/
def seriesA : List ℚ :=
  List.replicate 30 100 ++ List.replicate 20 90 ++ [300] ++ List.replicate 21 300

/-- A 20-bar constant series (shorter than the long window but long
enough for the short one). -/
def seriesB : List ℚ := List.replicate 20 100


/-- The whole `Signal` column as `generate_signals` leaves it after the
moving-average stage. -/
def signalCol (closes : List ℚ) : List ℤ :=
  (List.range closes.length).map (signalFromCols (smaCol 20 closes) (smaCol 50 closes))

/-- The literal signal column of `seriesA`: one buy at bar 50. -/
def sigLitA : List ℤ := List.replicate 50 0 ++ 1 :: List.replicate 21 0

/-- A 25-bar constant series: volatility defined (and zero) at the last
bar, no signals. -/
def seriesC : List ℚ := List.replicate 25 100

/-- The signal column of `seriesA` as a shallow index function. -/
def sigFnA : ℕ → ℤ := fun i => if i = 50 then 1 else 0

/-- The closes of `seriesA` as a shallow index function (`0` past the
end, matching an out-of-range `getD`). -/
def clsFnA : ℕ → ℚ := fun i =>
  if 72 ≤ i then 0 else if i ≤ 29 then 100 else if i ≤ 49 then 90 else 300

/-- The closes of `seriesC` as a shallow index function. -/
def clsFnC : ℕ → ℚ := fun i => if 25 ≤ i then 0 else 100

/-- The all-hold signal function (used for `seriesB`/`seriesC`). -/
def sigFnZero : ℕ → ℤ := fun _ => 0

/-- The running prefix maximum continuing from a seed `m` (the value
`series.cummax()` computes on a fully defined series). -/
def pmaxFrom (m : ℚ) : List ℚ → List ℚ
  | [] => []
  | x :: xs => max m x :: pmaxFrom (max m x) xs

/-- The running prefix maximum of a fully defined series. -/
def pmax : List ℚ → List ℚ
  | [] => []
  | x :: xs => x :: pmaxFrom x xs

/-!  ### Helper lemmas -/

theorem nanGT_none_right (x : Option ℚ) : nanGT x none = false := by cases x <;> rfl

theorem nanGT_none_left (x : Option ℚ) : nanGT none x = false := by cases x <;> rfl

theorem nanLT_none_right (x : Option ℚ) : nanLT x none = false := by cases x <;> rfl

theorem nanLT_none_left (x : Option ℚ) : nanLT none x = false := by cases x <;> rfl

theorem atO_map_range {α : Type} (f : ℕ → Option α) (n i : ℕ)
    (h : ∀ j, n ≤ j → f j = none) : atO ((List.range n).map f) i = f i := by
  unfold atO
  rcases lt_or_ge i n with hi | hi
  · rw [List.getElem?_map, List.getElem?_range hi]; rfl
  · have : ((List.range n).map f)[i]? = none := by
      apply List.getElem?_eq_none
      simpa using hi
    rw [this, h i hi]; rfl

theorem sma_none_of_ge (w : ℕ) (closes : List ℚ) (i : ℕ) (h : closes.length ≤ i) :
    sma w closes i = none := by
  unfold sma
  rw [if_neg]
  rintro ⟨-, h2⟩
  omega

theorem atO_smaCol (w : ℕ) (closes : List ℚ) (i : ℕ) :
    atO (smaCol w closes) i = sma w closes i :=
  atO_map_range _ _ _ (fun j hj => sma_none_of_ge w closes j hj)

/-- C4: for `W ∈ {20, 50}` and a bar index `i`, the trailing simple moving
average is undefined for `i < W-1`; for `i ≥ W-1` it is the arithmetic
mean (sum divided by `W`) of the window of exactly `W` closes ending at
bar `i` — entry `j` of that window is close `i+1-W+j`, so no later close
is consulted. -/
theorem C4_sma_trailing_mean (closes : List ℚ) (W i : ℕ)
    (hW : W = 20 ∨ W = 50) (hi : i < closes.length) :
    (i + 1 < W → sma W closes i = none) ∧
    (W ≤ i + 1 →
      sma W closes i = some ((windowAt W closes i).sum / (W : ℚ)) ∧
      (windowAt W closes i).length = W ∧
      ∀ j, j < W → (windowAt W closes i)[j]? = closes[i + 1 - W + j]?) := by
  clear hW
  constructor
  · intro h
    unfold sma
    rw [if_neg]
    rintro ⟨h1, -⟩
    omega
  · intro h
    refine ⟨by unfold sma; rw [if_pos ⟨h, hi⟩], ?_, ?_⟩
    · unfold windowAt
      rw [List.length_drop, List.length_take]
      omega
    · intro j hj
      unfold windowAt
      rw [List.getElem?_drop, List.getElem?_take, if_pos (by omega)]

/-- C4 witness: at `W = 20`, bar 19 of the 20-bar constant series the
moving average is defined and the window consists of the 20 closes
ending there; bar 18 would be undefined. -/
theorem C4_sma_trailing_mean_witness :
    ((20 : ℕ) = 20 ∨ (20 : ℕ) = 50) ∧ 19 < seriesB.length ∧
    ((19 + 1 < 20 → sma 20 seriesB 19 = none) ∧
      (20 ≤ 19 + 1 →
        sma 20 seriesB 19 = some ((windowAt 20 seriesB 19).sum / (20 : ℚ)) ∧
        (windowAt 20 seriesB 19).length = 20 ∧
        ∀ j, j < 20 → (windowAt 20 seriesB 19)[j]? = seriesB[19 + 1 - 20 + j]?)) :=
  ⟨Or.inl rfl, by decide, C4_sma_trailing_mean seriesB 20 19 (Or.inl rfl) (by decide)⟩

/-- C5: the simple-variant position starts flat and, for every bar
`i ≥ 1`, goes long on a buy signal, flat on a sell signal, persists on a
hold signal — hence a change of position forces a non-zero signal. -/
theorem C5_position_state_machine (closes : List ℚ) (i : ℕ)
    (h1 : 1 ≤ i) (h2 : i < closes.length) :
    position closes 0 = 0 ∧
    (signalOf closes i = 1 → position closes i = 1) ∧
    (signalOf closes i = -1 → position closes i = 0) ∧
    (signalOf closes i = 0 → position closes i = position closes (i - 1)) ∧
    (position closes i ≠ position closes (i - 1) → signalOf closes i ≠ 0) := by
  clear h2
  obtain ⟨k, rfl⟩ : ∃ k, i = k + 1 := ⟨i - 1, by omega⟩
  refine ⟨rfl, ?_, ?_, ?_, ?_⟩
  · intro hs; simp [position, hs]
  · intro hs; simp [position, hs]
  · intro hs; simp [position, hs]
  · intro hne hs
    exact hne (by simp [position, hs])

/-- C1: for a bar `i ≥ 1`, when both averages are defined at `i` and
`i-1` the signal is `+1` exactly on a strict upward cross, `-1` exactly
on a strict downward cross, and `0` otherwise — in particular equality at
either bar never signals; when any of the four averages is undefined the
signal is `0`. -/
theorem C1_signal_crossover (closes : List ℚ) (i : ℕ)
    (h1 : 1 ≤ i) (h2 : i < closes.length) :
    (∀ a b c d : ℚ, sma 20 closes i = some a → sma 50 closes i = some b →
      sma 20 closes (i - 1) = some c → sma 50 closes (i - 1) = some d →
      (signalOf closes i = 1 ↔ b < a ∧ c < d) ∧
      (signalOf closes i = -1 ↔ a < b ∧ d < c) ∧
      ((a = b ∨ c = d) → signalOf closes i = 0) ∧
      (¬(b < a ∧ c < d) → ¬(a < b ∧ d < c) → signalOf closes i = 0)) ∧
    (sma 20 closes i = none ∨ sma 50 closes i = none ∨
      sma 20 closes (i - 1) = none ∨ sma 50 closes (i - 1) = none →
      signalOf closes i = 0) := by
  clear h2
  have hne : i ≠ 0 := by omega
  constructor
  · intro a b c d ha hb hc hd
    have e : signalOf closes i =
        (if b < a ∧ c < d then 1 else if a < b ∧ d < c then -1 else 0) := by
      unfold signalOf signalFromCols
      rw [if_neg hne, atO_smaCol, atO_smaCol, atO_smaCol, atO_smaCol,
        ha, hb, hc, hd]
      simp only [nanGT, nanLT, gt_iff_lt, Bool.and_eq_true, decide_eq_true_eq]
    rw [e]
    have k1 : (if b < a ∧ c < d then (1 : ℤ) else if a < b ∧ d < c then -1 else 0) = 1
        ↔ b < a ∧ c < d := by
      split_ifs with hA hB <;> simp_all
    have k2 : (if b < a ∧ c < d then (1 : ℤ) else if a < b ∧ d < c then -1 else 0) = -1
        ↔ a < b ∧ d < c := by
      split_ifs with hA hB <;> simp_all
      exact fun h => absurd h (lt_asymm hA.1)
    refine ⟨k1, k2, ?_, ?_⟩
    · rintro (rfl | rfl) <;>
        · split_ifs with hA hB
          · exact absurd hA (by simp [lt_irrefl])
          · exact absurd hB (by simp [lt_irrefl])
          · rfl
    · intro hA hB
      rw [if_neg hA, if_neg hB]
  · intro h
    rcases h with h | h | h | h <;>
      simp [signalOf, signalFromCols, atO_smaCol, h, hne,
        nanGT_none_left, nanGT_none_right, nanLT_none_left, nanLT_none_right]

/-- C1 witness: bar 50 of `seriesA`, where all four averages are defined
(and an upward cross occurs). -/
theorem C1_signal_crossover_witness :
    (1 ≤ 50 ∧ 50 < seriesA.length) ∧
    ((∀ a b c d : ℚ, sma 20 seriesA 50 = some a → sma 50 seriesA 50 = some b →
      sma 20 seriesA (50 - 1) = some c → sma 50 seriesA (50 - 1) = some d →
      (signalOf seriesA 50 = 1 ↔ b < a ∧ c < d) ∧
      (signalOf seriesA 50 = -1 ↔ a < b ∧ d < c) ∧
      ((a = b ∨ c = d) → signalOf seriesA 50 = 0) ∧
      (¬(b < a ∧ c < d) → ¬(a < b ∧ d < c) → signalOf seriesA 50 = 0)) ∧
    (sma 20 seriesA 50 = none ∨ sma 50 seriesA 50 = none ∨
      sma 20 seriesA (50 - 1) = none ∨ sma 50 seriesA (50 - 1) = none →
      signalOf seriesA 50 = 0)) :=
  ⟨⟨by omega, by decide⟩, C1_signal_crossover seriesA 50 (by omega) (by decide)⟩

/-- C5 witness: bar 1 of the 20-bar constant series. -/
theorem C5_position_state_machine_witness :
    (1 ≤ 1 ∧ 1 < seriesB.length) ∧
    (position seriesB 0 = 0 ∧
      (signalOf seriesB 1 = 1 → position seriesB 1 = 1) ∧
      (signalOf seriesB 1 = -1 → position seriesB 1 = 0) ∧
      (signalOf seriesB 1 = 0 → position seriesB 1 = position seriesB (1 - 1)) ∧
      (position seriesB 1 ≠ position seriesB (1 - 1) → signalOf seriesB 1 ≠ 0)) :=
  ⟨⟨le_refl 1, by decide⟩, C5_position_state_machine seriesB 1 (le_refl 1) (by decide)⟩

/-- C10: the trade simulation reads only the `Signal` and `close`
columns.  Inserting the position-sizing stage (which attaches
`Daily Returns`, `Volatility` and `Position Size`) before
`simulate_trades` changes none of the cash, invested-capital,
portfolio-value or portfolio-return sequences — on any frame and, in
particular, in the full pipeline. -/
theorem C10_sizing_ignored (df : StockData) (closes : List ℚ) (cap frac : ℚ) :
    ((simulateTrades (adjustPositionSize df cap frac) cap).investedRaw
        = (simulateTrades df cap).investedRaw ∧
      (simulateTrades (adjustPositionSize df cap frac) cap).invested
        = (simulateTrades df cap).invested ∧
      (simulateTrades (adjustPositionSize df cap frac) cap).portfolioValue
        = (simulateTrades df cap).portfolioValue ∧
      (simulateTrades (adjustPositionSize df cap frac) cap).portfolioRet
        = (simulateTrades df cap).portfolioRet ∧
      simCashCol (adjustPositionSize df cap frac) cap = simCashCol df cap) ∧
    ((runEnhanced closes cap).investedRaw = (runEnhancedNoSizing closes cap).investedRaw ∧
      (runEnhanced closes cap).invested = (runEnhancedNoSizing closes cap).invested ∧
      (runEnhanced closes cap).portfolioValue = (runEnhancedNoSizing closes cap).portfolioValue ∧
      (runEnhanced closes cap).portfolioRet = (runEnhancedNoSizing closes cap).portfolioRet) :=
  ⟨⟨rfl, rfl, rfl, rfl, rfl⟩, ⟨rfl, rfl, rfl, rfl⟩⟩

theorem runEnhanced_signal (closes : List ℚ) (cap : ℚ) :
    (runEnhanced closes cap).signal = signalCol closes := rfl

theorem runEnhanced_investedRaw (closes : List ℚ) (cap : ℚ) :
    (runEnhanced closes cap).investedRaw =
      (List.range closes.length).map fun i =>
        (simStateAt (fun j => ((signalCol closes)[j]?).getD 0)
          (fun j => (closes[j]?).getD 0) cap i).2 := rfl

theorem runEnhanced_invested (closes : List ℚ) (cap : ℚ) :
    (runEnhanced closes cap).invested =
      ffillFrom none ((List.range closes.length).map fun i =>
        (simStateAt (fun j => ((signalCol closes)[j]?).getD 0)
          (fun j => (closes[j]?).getD 0) cap i).2) := rfl

theorem runEnhanced_portfolioValue (closes : List ℚ) (cap : ℚ) :
    (runEnhanced closes cap).portfolioValue =
      (List.range closes.length).map
        (pvAt (fun j => ((signalCol closes)[j]?).getD 0)
          (fun j => (closes[j]?).getD 0) cap) := rfl

theorem runEnhanced_portfolioRet (closes : List ℚ) (cap : ℚ) :
    (runEnhanced closes cap).portfolioRet =
      pctChangeO ((List.range closes.length).map
        (pvAt (fun j => ((signalCol closes)[j]?).getD 0)
          (fun j => (closes[j]?).getD 0) cap)) := rfl

theorem simCashCol_runEnhanced (closes : List ℚ) (cap : ℚ) :
    simCashCol (runEnhanced closes cap) cap =
      (List.range closes.length).map fun i =>
        (simStateAt (fun j => ((signalCol closes)[j]?).getD 0)
          (fun j => (closes[j]?).getD 0) cap i).1 := rfl

theorem signalCol_seriesA : signalCol seriesA = sigLitA := by
  with_unfolding_all decide

theorem atO_cons_zero {α : Type} (y : Option α) (ys : List (Option α)) :
    atO (y :: ys) 0 = y := by simp [atO]

theorem atO_cons_succ {α : Type} (y : Option α) (ys : List (Option α)) (i : ℕ) :
    atO (y :: ys) (i + 1) = atO ys i := by simp [atO]

theorem atO_map_range_lt {α : Type} {f : ℕ → Option α} {n i : ℕ} (h : i < n) :
    atO ((List.range n).map f) i = f i := by
  unfold atO
  rw [List.getElem?_map, List.getElem?_range h]
  rfl

theorem atO_ffillFrom_zero {α : Type} (prev b : Option α) (r : List (Option α)) :
    atO (ffillFrom prev (b :: r)) 0 =
      match b with | some v => some v | none => prev := by
  cases b <;> simp [ffillFrom, atO]

theorem atO_ffillFrom_succ {α : Type} (prev : Option α) (xs : List (Option α))
    (i : ℕ) (h : i + 1 < xs.length) :
    atO (ffillFrom prev xs) (i + 1) =
      match atO xs (i + 1) with
      | some v => some v
      | none => atO (ffillFrom prev xs) i := by
  induction xs generalizing prev i with
  | nil => simp at h
  | cons a rest ih =>
    obtain ⟨b, r, rfl⟩ : ∃ b r, rest = b :: r := by
      cases rest with
      | nil => simp at h
      | cons b r => exact ⟨b, r, rfl⟩
    have hstep : ∀ p : Option α, ∀ c : Option α,
        ffillFrom p (c :: b :: r) =
          (match c with | some v => some v | none => p) ::
            ffillFrom (match c with | some v => some v | none => p) (b :: r) := by
      intro p c
      cases c <;> rfl
    rw [hstep]
    cases i with
    | zero =>
      simp only [atO_cons_succ, atO_cons_zero, atO_ffillFrom_zero]
    | succ k =>
      simp only [atO_cons_succ]
      rw [ih _ k (by simpa using h)]
      simp only [atO_cons_succ]


theorem lookup_sigLitA : (fun j => ((sigLitA)[j]?).getD 0) = sigFnA := by
  funext j
  by_cases h : j < 72
  · have hb : ∀ k, k < 72 → ((sigLitA)[k]?).getD 0 = sigFnA k := by decide
    exact hb j h
  · have h1 : (sigLitA)[j]? = none := by
      apply List.getElem?_eq_none
      show sigLitA.length ≤ j
      have : sigLitA.length = 72 := by decide
      omega
    have h2 : sigFnA j = 0 := by
      unfold sigFnA
      rw [if_neg (by omega)]
    rw [h1, h2]
    rfl

theorem lookup_seriesA : (fun j => ((seriesA)[j]?).getD 0) = clsFnA := by
  funext j
  by_cases h : j < 72
  · have hb : ∀ k, k < 72 → ((seriesA)[k]?).getD 0 = clsFnA k := by
      with_unfolding_all decide
    exact hb j h
  · have h1 : (seriesA)[j]? = none := by
      apply List.getElem?_eq_none
      show seriesA.length ≤ j
      have : seriesA.length = 72 := by decide
      omega
    have h2 : clsFnA j = 0 := by
      unfold clsFnA
      rw [if_pos (by omega)]
    rw [h1, h2]
    rfl

theorem simStateAt_succ (sig : ℕ → ℤ) (cls : ℕ → ℚ) (cap : ℚ) (i : ℕ) :
    simStateAt sig cls cap (i + 1) =
      simStep sig cls (simStateAt sig cls cap i) (i + 1) := rfl

theorem simStep_hold (sig : ℕ → ℤ) (cls : ℕ → ℚ) (st : Option ℚ × Option ℚ)
    (i : ℕ) (h : sig i = 0) : simStep sig cls st i = (st.1, none) := by
  unfold simStep
  rw [h]
  norm_num

theorem simStateAt_hold (sig : ℕ → ℤ) (cls : ℕ → ℚ) (cap : ℚ) (i k : ℕ)
    (hk : 1 ≤ k) (h : ∀ m, i < m → m ≤ i + k → sig m = 0) :
    simStateAt sig cls cap (i + k) = ((simStateAt sig cls cap i).1, none) := by
  induction k with
  | zero => omega
  | succ k ih =>
    rw [show i + (k + 1) = (i + k) + 1 from rfl, simStateAt_succ,
      simStep_hold _ _ _ _ (h _ (by omega) (by omega))]
    by_cases hk0 : k = 0
    · subst hk0; rfl
    · rw [ih (by omega) (fun m hm1 hm2 => h m hm1 (by omega))]

/-- C2 (failing-input evaluation): on `seriesA` with initial capital
600, bar 50 is a buy and bar 51 a hold.  At bar 51 the cash is 0 and
the forward-filled invested capital is 600, yet the recorded portfolio
value is 0 — `Portfolio Value` is written *before* the forward fill,
treating the unset invested-capital cell as 0, so
`portfolio_value[51] ≠ cash[51] + invested_capital[51]`. -/
theorem C2_pv_omits_invested_on_hold :
    ((runEnhanced seriesA 600).signal[50]? = some 1) ∧
    ((runEnhanced seriesA 600).signal[51]? = some 0) ∧
    atO (simCashCol (runEnhanced seriesA 600) 600) 51 = some 0 ∧
    atO (runEnhanced seriesA 600).invested 51 = some 600 ∧
    atO (runEnhanced seriesA 600).portfolioValue 51 = some 0 ∧
    atO (runEnhanced seriesA 600).portfolioValue 51 ≠
      oadd (atO (simCashCol (runEnhanced seriesA 600) 600) 51)
        (atO (runEnhanced seriesA 600).invested 51) := by
  have s49 : simStateAt sigFnA clsFnA 600 49 = (some 600, none) := by
    rw [show (49 : ℕ) = 0 + 49 from rfl,
      simStateAt_hold sigFnA clsFnA 600 0 49 (by omega)
        (fun m h1 h2 => by unfold sigFnA; rw [if_neg (by omega)])]
    rfl
  have s50 : simStateAt sigFnA clsFnA 600 50 = (some 0, some 600) := by
    rw [show (50 : ℕ) = 49 + 1 from rfl, simStateAt_succ, s49]
    with_unfolding_all decide
  have s51 : simStateAt sigFnA clsFnA 600 51 = (some 0, none) := by
    rw [show (51 : ℕ) = 50 + 1 from rfl, simStateAt_succ, s50]
    with_unfolding_all decide
  have hlen : seriesA.length = 72 := by decide
  have hcash : atO (simCashCol (runEnhanced seriesA 600) 600) 51 = some 0 := by
    rw [simCashCol_runEnhanced, signalCol_seriesA, lookup_sigLitA, lookup_seriesA,
      hlen, atO_map_range_lt (show (51 : ℕ) < 72 by omega)]
    simp only [s51]
  have hpv : atO (runEnhanced seriesA 600).portfolioValue 51 = some 0 := by
    rw [runEnhanced_portfolioValue, signalCol_seriesA, lookup_sigLitA, lookup_seriesA,
      hlen, atO_map_range_lt (show (51 : ℕ) < 72 by omega)]
    unfold pvAt
    rw [s51]
    with_unfolding_all decide
  have hinv : atO (runEnhanced seriesA 600).invested 51 = some 600 := by
    rw [runEnhanced_invested, signalCol_seriesA, lookup_sigLitA, lookup_seriesA, hlen]
    rw [show (51 : ℕ) = 50 + 1 from rfl, atO_ffillFrom_succ _ _ 50 (by simp)]
    rw [atO_map_range_lt (show 50 + 1 < 72 by omega)]
    rw [show (50 : ℕ) + 1 = 51 from rfl, s51]
    rw [show (50 : ℕ) = 49 + 1 from rfl, atO_ffillFrom_succ _ _ 49 (by simp)]
    rw [atO_map_range_lt (show 49 + 1 < 72 by omega)]
    rw [show (49 : ℕ) + 1 = 50 from rfl, s50]
  refine ⟨?_, ?_, hcash, hinv, hpv, ?_⟩
  · rw [runEnhanced_signal, signalCol_seriesA]; decide
  · rw [runEnhanced_signal, signalCol_seriesA]; decide
  · rw [hpv, hcash, hinv]; with_unfolding_all decide

/-- C3 (failing-input evaluation): on `seriesA` with initial capital 600
the buy at bar 50 commits the entire available capital (600) as invested
capital, while the Position Sizer's output for this series is not even a
finite number (the final rolling volatility is zero), so the committed
amount cannot be the sizer's output capped at available cash. -/
theorem C3_buy_commits_full_capital :
    atO (runEnhanced seriesA 600).investedRaw 50 = some 600 ∧
    (runEnhanced seriesA 600).posSize = none := by
  constructor
  · have s49 : simStateAt sigFnA clsFnA 600 49 = (some 600, none) := by
      rw [show (49 : ℕ) = 0 + 49 from rfl,
        simStateAt_hold sigFnA clsFnA 600 0 49 (by omega)
          (fun m h1 h2 => by unfold sigFnA; rw [if_neg (by omega)])]
      rfl
    have s50 : simStateAt sigFnA clsFnA 600 50 = (some 0, some 600) := by
      rw [show (50 : ℕ) = 49 + 1 from rfl, simStateAt_succ, s49]
      with_unfolding_all decide
    rw [runEnhanced_investedRaw, signalCol_seriesA, lookup_sigLitA, lookup_seriesA,
      show seriesA.length = 72 from by decide,
      atO_map_range_lt (show (50 : ℕ) < 72 by omega)]
    simp only [s50]
  · have hvar : rollingVar20 (pctChangeQ seriesA) 71 = some 0 := by
      with_unfolding_all decide
    have hlen : (pctChangeQ seriesA).length = 72 := by
      simp [pctChangeQ, pctChangeO, seriesA]
    have hv : atO (volatilityColFrom (pctChangeQ seriesA))
        ((volatilityColFrom (pctChangeQ seriesA)).length - 1) = some 0 := by
      have h1 : (volatilityColFrom (pctChangeQ seriesA)).length = 72 := by
        simp [volatilityColFrom, hlen]
      rw [h1]
      show atO (volatilityColFrom (pctChangeQ seriesA)) 71 = some 0
      unfold volatilityColFrom
      rw [hlen, atO_map_range_lt (show (71 : ℕ) < 72 by omega), hvar]
      simp
    show positionSizeFrom (volatilityColFrom (pctChangeQ seriesA)) 600 (1 / 10) = none
    unfold positionSizeFrom
    rw [hv]
    simp

theorem length_volatilityColFrom (dr : List (Option ℚ)) :
    (volatilityColFrom dr).length = dr.length := by
  simp [volatilityColFrom]

theorem length_pctChangeQ (closes : List ℚ) :
    (pctChangeQ closes).length = closes.length := by
  simp [pctChangeQ, pctChangeO]

theorem annualizedO_of_prod_one (rs : List (Option ℚ)) (n : ℕ)
    (h1 : prodSkipNA rs = 1) (h2 : n ≠ 0) : annualizedO rs n = some 0 := by
  unfold annualizedO
  rw [if_neg h2, if_pos (Or.inl (by rw [h1]; norm_num)), h1]
  norm_num [Real.one_rpow]

theorem signalCol_seriesC : signalCol seriesC = List.replicate 25 0 := by
  with_unfolding_all decide

theorem lookup_sigLitC : (fun j => ((List.replicate 25 (0 : ℤ))[j]?).getD 0) = sigFnZero := by
  funext j
  unfold sigFnZero
  rw [List.getElem?_replicate]
  split <;> rfl

theorem lookup_seriesC : (fun j => ((seriesC)[j]?).getD 0) = clsFnC := by
  funext j
  by_cases h : j < 25
  · have hb : ∀ k, k < 25 → ((seriesC)[k]?).getD 0 = clsFnC k := by
      with_unfolding_all decide
    exact hb j h
  · have h1 : (seriesC)[j]? = none := by
      apply List.getElem?_eq_none
      show seriesC.length ≤ j
      have : seriesC.length = 25 := by decide
      omega
    have h2 : clsFnC j = 0 := by
      unfold clsFnC
      rw [if_pos (by omega)]
    rw [h1, h2]
    rfl

theorem volLast_seriesC :
    atO (volatilityColFrom (pctChangeQ seriesC)) (seriesC.length - 1) = some 0 := by
  have hvar : rollingVar20 (pctChangeQ seriesC) 24 = some 0 := by
    with_unfolding_all decide
  have hlen : (pctChangeQ seriesC).length = 25 := by
    rw [length_pctChangeQ]; decide
  rw [show seriesC.length - 1 = 24 from by decide]
  unfold volatilityColFrom
  rw [hlen, atO_map_range_lt (show (24 : ℕ) < 25 by omega), hvar]
  simp

/-- C9 (amended): whenever the most recent volatility is undefined or
zero, the Position Sizer's output is undefined (the non-finite float
result), never a finite default — but the condition is *not* fatal to the
instrument's simulation: the trade simulator never reads the sizer's
output, so the portfolio columns are exactly those of a run that never
computes a position size. -/
theorem C9_sizer_undefined_not_fatal (closes : List ℚ) (cap frac : ℚ)
    (h : atO (volatilityColFrom (pctChangeQ closes)) (closes.length - 1) = none ∨
      atO (volatilityColFrom (pctChangeQ closes)) (closes.length - 1) = some 0) :
    positionSizeOf closes cap frac = none ∧
    (runEnhanced closes cap).portfolioValue = (runEnhancedNoSizing closes cap).portfolioValue ∧
    (runEnhanced closes cap).invested = (runEnhancedNoSizing closes cap).invested := by
  refine ⟨?_, rfl, rfl⟩
  unfold positionSizeOf positionSizeFrom
  rw [length_volatilityColFrom, length_pctChangeQ]
  rcases h with h | h
  · rw [h]
  · rw [h]
    simp

/-- C9 witness: the 25-bar constant series, whose most recent volatility
is defined and zero. -/
theorem C9_sizer_undefined_not_fatal_witness :
    (atO (volatilityColFrom (pctChangeQ seriesC)) (seriesC.length - 1) = none ∨
      atO (volatilityColFrom (pctChangeQ seriesC)) (seriesC.length - 1) = some 0) ∧
    (positionSizeOf seriesC 600 (1 / 10) = none ∧
      (runEnhanced seriesC 600).portfolioValue = (runEnhancedNoSizing seriesC 600).portfolioValue ∧
      (runEnhanced seriesC 600).invested = (runEnhancedNoSizing seriesC 600).invested) :=
  ⟨Or.inr volLast_seriesC,
    C9_sizer_undefined_not_fatal seriesC 600 (1 / 10) (Or.inr volLast_seriesC)⟩

/-- C9 counterexample to the claim as stated: on the 25-bar constant
series the most recent volatility is zero and the sizer's output is
indeed undefined, yet nothing fatal happens to the instrument's
simulation — the final portfolio value is a defined 600 and the
annualized portfolio return is a defined 0, because the simulator ignores
the sizer entirely. -/
theorem C9_degenerate_sizer_yet_defined_run :
    positionSizeOf seriesC 600 (1 / 10) = none ∧
    atO (runEnhanced seriesC 600).portfolioValue 24 = some 600 ∧
    (calcPortfolioMetrics (runEnhanced seriesC 600)).annPortfolio = some 0 := by
  have hs24 : ∀ i, 1 ≤ i → simStateAt sigFnZero clsFnC 600 i = (some 600, none) := by
    intro i hi
    rw [show i = 0 + i from (Nat.zero_add i).symm,
      simStateAt_hold sigFnZero clsFnC 600 0 i hi (fun m h1 h2 => rfl)]
    rfl
  refine ⟨?_, ?_, ?_⟩
  · unfold positionSizeOf positionSizeFrom
    rw [length_volatilityColFrom, length_pctChangeQ, volLast_seriesC]
    simp
  · rw [runEnhanced_portfolioValue, signalCol_seriesC, lookup_sigLitC, lookup_seriesC,
      show seriesC.length = 25 from by decide,
      atO_map_range_lt (show (24 : ℕ) < 25 by omega)]
    unfold pvAt
    rw [hs24 24 (by omega)]
    with_unfolding_all decide
  · show annPortfolioOf (runEnhanced seriesC 600).portfolioRet = some 0
    have hmap : (List.range 25).map (pvAt sigFnZero clsFnC 600)
        = List.replicate 25 (some 600) := by
      rw [List.eq_replicate_iff]
      refine ⟨by simp, ?_⟩
      intro b hb
      obtain ⟨i, hi, rfl⟩ := List.mem_map.mp hb
      have hi25 : i < 25 := by simpa using hi
      unfold pvAt
      rcases Nat.eq_zero_or_pos i with h0 | h0
      · subst h0; with_unfolding_all decide
      · rw [hs24 i h0]
        with_unfolding_all decide
    rw [runEnhanced_portfolioRet, signalCol_seriesC, lookup_sigLitC, lookup_seriesC,
      show seriesC.length = 25 from by decide, hmap]
    have hret : pctChangeO (List.replicate 25 (some (600 : ℚ)))
        = none :: List.replicate 24 (some 0) := by
      with_unfolding_all decide
    rw [hret]
    unfold annPortfolioOf
    apply annualizedO_of_prod_one
    · with_unfolding_all decide
    · decide

theorem length_pmaxFrom (m : ℚ) (L : List ℚ) : (pmaxFrom m L).length = L.length := by
  induction L generalizing m with
  | nil => rfl
  | cons x xs ih => simp [pmaxFrom, ih]

theorem cummaxFrom_map_some (m : ℚ) (L : List ℚ) :
    cummaxFrom (some m) (L.map some) = (pmaxFrom m L).map some := by
  induction L generalizing m with
  | nil => rfl
  | cons x xs ih => simp [cummaxFrom, pmaxFrom, ih]

theorem cummaxO_map_some (x : ℚ) (xs : List ℚ) :
    cummaxO ((x :: xs).map some) = (pmax (x :: xs)).map some := by
  simp [cummaxO, cummaxFrom, pmax, cummaxFrom_map_some]

theorem dropna_map_some {α : Type} (l : List α) : dropna (l.map some) = l := by
  simp [dropna, List.filterMap_map]

theorem pmaxFrom_mem_pos (m : ℚ) (L : List ℚ) (hm : 0 < m)
    (hL : ∀ x ∈ L, 0 < x) : ∀ y ∈ pmaxFrom m L, 0 < y := by
  induction L generalizing m with
  | nil => simp [pmaxFrom]
  | cons x xs ih =>
    simp only [pmaxFrom, List.mem_cons]
    rintro y (rfl | hy)
    · exact lt_of_lt_of_le hm (le_max_left _ _)
    · exact ih (max m x) (lt_of_lt_of_le hm (le_max_left _ _))
        (fun z hz => hL z (List.mem_cons_of_mem _ hz)) y hy

theorem zip_pmaxFrom_le (m : ℚ) (L : List ℚ) :
    ∀ p ∈ L.zip (pmaxFrom m L), p.1 ≤ p.2 := by
  induction L generalizing m with
  | nil => simp
  | cons x xs ih =>
    simp only [pmaxFrom, List.zip_cons_cons, List.mem_cons]
    rintro p (rfl | hp)
    · exact le_max_right _ _
    · exact ih (max m x) p hp

theorem zip_pmaxFrom_eq_iff (m : ℚ) (L : List ℚ) :
    (∀ p ∈ L.zip (pmaxFrom m L), p.1 = p.2) ↔ List.Chain (· ≤ ·) m L := by
  induction L generalizing m with
  | nil => simp [pmaxFrom]
  | cons x xs ih =>
    simp only [pmaxFrom, List.zip_cons_cons, List.mem_cons, List.chain_cons,
      forall_eq_or_imp]
    constructor
    · rintro ⟨h1, h2⟩
      have hmx : m ≤ x := max_eq_right_iff.mp h1.symm
      have hx : max m x = x := max_eq_right hmx
      rw [hx] at h2
      exact ⟨hmx, (ih x).mp h2⟩
    · rintro ⟨h1, h2⟩
      have hx : max m x = x := max_eq_right h1
      rw [hx]
      exact ⟨rfl, (ih x).mpr h2⟩

theorem min?_spec {l : List ℚ} {d : ℚ} (h : l.min? = some d) :
    d ∈ l ∧ ∀ b ∈ l, d ≤ b := by
  haveI : Std.Antisymm (α := ℚ) (· ≤ ·) := ⟨fun h1 h2 => le_antisymm h1 h2⟩
  exact (List.min?_eq_some_iff (fun a => le_refl a) (fun a b => min_choice a b)
    (fun a b c => le_min_iff)).mp h

/-- C6 (amended): for every nonempty sequence of positive values, the
computed maximum drawdown `min (V / V.cummax() - 1)` is defined, at most
0, and equals 0 exactly when the sequence is non-decreasing. -/
theorem C6_drawdown_bound (V : List ℚ) (h0 : V ≠ []) (hpos : ∀ x ∈ V, 0 < x) :
    ∃ d, maxDrawdownOf (V.map some) = some d ∧ d ≤ 0 ∧
      (d = 0 ↔ List.Chain' (· ≤ ·) V) := by
  obtain ⟨x, xs, rfl⟩ : ∃ x xs, V = x :: xs := by
    cases V with
    | nil => exact absurd rfl h0
    | cons a l => exact ⟨a, l, rfl⟩
  have hxpos : 0 < x := hpos x (by simp)
  have htpos : ∀ z ∈ xs, 0 < z := fun z hz => hpos z (List.mem_cons_of_mem _ hz)
  have hq : ∀ p ∈ (x :: xs).zip (pmax (x :: xs)), p.1 ≤ p.2 ∧ 0 < p.2 := by
    simp only [pmax, List.zip_cons_cons, List.mem_cons]
    rintro p (rfl | hp)
    · exact ⟨le_refl x, hxpos⟩
    · obtain ⟨a, b⟩ := p
      exact ⟨zip_pmaxFrom_le x xs _ hp,
        pmaxFrom_mem_pos x xs hxpos htpos b (List.mem_zip hp).2⟩
  have hmdd : maxDrawdownOf ((x :: xs).map some) =
      (((x :: xs).zip (pmax (x :: xs))).map fun p => p.1 / p.2 - 1).min? := by
    unfold maxDrawdownOf minSkipNA
    rw [cummaxO_map_some, List.zip_map, List.map_map]
    rw [List.map_congr_left (g := fun p => some (p.1 / p.2 - 1))
      (fun p hp => by
        obtain ⟨h1, h2⟩ := hq p hp
        show osub (odiv (some p.1) (some p.2)) (some 1) = some (p.1 / p.2 - 1)
        simp [odiv, osub, h2.ne'])]
    rw [show (fun p : ℚ × ℚ => some (p.1 / p.2 - 1)) =
        (fun v => some v) ∘ (fun p : ℚ × ℚ => p.1 / p.2 - 1) from rfl]
    rw [← List.map_map, dropna_map_some]
  have hq0 : (x :: xs).zip (pmax (x :: xs)) = (x, x) :: xs.zip (pmaxFrom x xs) := by
    simp [pmax]
  have hddne : (((x :: xs).zip (pmax (x :: xs))).map fun p => p.1 / p.2 - 1) =
      (x / x - 1) :: ((xs.zip (pmaxFrom x xs)).map fun p => p.1 / p.2 - 1) := by
    rw [hq0]; rfl
  obtain ⟨d, hd⟩ : ∃ d, (((x :: xs).zip (pmax (x :: xs))).map
      fun p => p.1 / p.2 - 1).min? = some d := by
    rw [hddne]; exact ⟨_, List.min?_cons'⟩
  obtain ⟨hdmem, hdle⟩ := min?_spec hd
  have hddle : ∀ b ∈ (((x :: xs).zip (pmax (x :: xs))).map fun p => p.1 / p.2 - 1),
      b ≤ 0 := by
    intro b hb
    obtain ⟨p, hp, rfl⟩ := List.mem_map.mp hb
    obtain ⟨h1, h2⟩ := hq p hp
    have hle1 : p.1 / p.2 ≤ 1 := (div_le_one h2).mpr h1
    linarith
  refine ⟨d, by rw [hmdd, hd], hddle d hdmem, ?_, ?_⟩
  · intro hd0
    have hall : ∀ p ∈ (x :: xs).zip (pmax (x :: xs)), p.1 = p.2 := by
      intro p hp
      have hmem : (p.1 / p.2 - 1) ∈ (((x :: xs).zip (pmax (x :: xs))).map
          fun p => p.1 / p.2 - 1) := List.mem_map_of_mem _ hp
      have hge : (0 : ℚ) ≤ p.1 / p.2 - 1 := by
        rw [← hd0]; exact hdle _ hmem
      have hle : p.1 / p.2 - 1 ≤ 0 := hddle _ hmem
      have heq1 : p.1 / p.2 = 1 := by linarith
      exact (div_eq_one_iff_eq (ne_of_gt (hq p hp).2)).mp heq1
    rw [hq0] at hall
    have htl : ∀ p ∈ xs.zip (pmaxFrom x xs), p.1 = p.2 :=
      fun p hp => hall p (List.mem_cons_of_mem _ hp)
    exact (zip_pmaxFrom_eq_iff x xs).mp htl
  · intro hch
    have htl : ∀ p ∈ xs.zip (pmaxFrom x xs), p.1 = p.2 :=
      (zip_pmaxFrom_eq_iff x xs).mpr hch
    have hddz : ∀ b ∈ (((x :: xs).zip (pmax (x :: xs))).map fun p => p.1 / p.2 - 1),
        b = 0 := by
      intro b hb
      obtain ⟨p, hp, rfl⟩ := List.mem_map.mp hb
      rw [hq0] at hp
      rcases List.mem_cons.mp hp with rfl | hp2
      · simp [div_self (ne_of_gt hxpos)]
      · rw [htl p hp2, div_self (ne_of_gt (hq p (by rw [hq0]; exact List.mem_cons_of_mem _ hp2)).2)]
        ring
    exact hddz d hdmem

/-- C6 counterexample to the claim as stated ("for every value sequence"):
on the negative sequence `[-1, -2]` the computed maximum drawdown is `0`
(the first ratio is `1`, the second is `2`) even though the sequence is
strictly decreasing, so "`0` iff non-decreasing" fails without a
positivity assumption. -/
theorem C6_negative_sequence_breaks_iff :
    maxDrawdownOf ([(-1 : ℚ), -2].map some) = some 0 ∧
    ¬ List.Chain' (· ≤ ·) [(-1 : ℚ), -2] := by
  constructor
  · with_unfolding_all decide
  · intro h
    rw [List.chain'_cons] at h
    exact absurd h.1 (by norm_num)

/-- C6 witness: the positive increasing sequence `[1, 2]`. -/
theorem C6_drawdown_bound_witness :
    (([(1 : ℚ), 2] ≠ []) ∧ (∀ x ∈ [(1 : ℚ), 2], 0 < x)) ∧
    (∃ d, maxDrawdownOf ([(1 : ℚ), 2].map some) = some d ∧ d ≤ 0 ∧
      (d = 0 ↔ List.Chain' (· ≤ ·) [(1 : ℚ), 2])) :=
  ⟨⟨by decide, by with_unfolding_all decide⟩,
    C6_drawdown_bound [1, 2] (by decide) (by with_unfolding_all decide)⟩

theorem prodSkipNA_eq (rs : List (Option ℚ)) :
    prodSkipNA rs = prodOnePlus (dropna rs) := by
  induction rs with
  | nil => rfl
  | cons a t ih =>
    cases a with
    | none => simpa [prodSkipNA, dropna] using ih
    | some r =>
      simp [prodSkipNA, ih, dropna, prodOnePlus, List.filterMap_cons]

/-- C7 (amended): the enhanced-variant calculator conforms to the spec
formula — its exponent divisor is `|R|`, the number of defined returns
after `dropna`, with `|R| = 0` fatal (undefined); the simple-variant
calculator computes the same formula but divides the exponent by the full
column length, which on a return column with one leading undefined entry
is `|R| + 1`, not `|R|`. -/
theorem C7_annualized_divisor :
    (∀ rs : List (Option ℚ), annPortfolioOf rs = specAnnualized (dropna rs)) ∧
    (∀ R : List ℚ, annualizedO (none :: R.map some) (R.length + 1)
        = specAnnualizedDiv R (R.length + 1)) := by
  constructor
  · intro rs
    unfold annPortfolioOf annualizedO specAnnualized specAnnualizedDiv
    rw [prodSkipNA_eq]
  · intro R
    have hd : dropna (none :: R.map some) = R := by
      show List.filterMap id (none :: R.map some) = R
      rw [show List.filterMap id (none :: R.map some) = List.filterMap id (R.map some) from by
        simp [List.filterMap_cons]]
      exact dropna_map_some R
    unfold annualizedO specAnnualizedDiv
    rw [prodSkipNA_eq, hd]

/-- C7 counterexample to the claim as stated: feed the simple-variant
calculator the two-entry return column `[NaN, 1.0]` (so `|R| = 1` and the
column length is 2).  The code computes `2 ^ (6125/2) − 1`, the claimed
formula gives `2 ^ (6125/1) − 1`; the two differ. -/
theorem C7_simple_variant_wrong_divisor :
    annualizedO [none, some 1] 2 ≠ specAnnualized (dropna [none, some 1]) := by
  have h1 : dropna [none, some (1 : ℚ)] = [1] := by with_unfolding_all decide
  have hp1 : prodSkipNA [none, some (1 : ℚ)] = 2 := by with_unfolding_all decide
  have hp2 : prodOnePlus [(1 : ℚ)] = 2 := by with_unfolding_all decide
  rw [h1]
  unfold annualizedO specAnnualized specAnnualizedDiv
  rw [hp1, hp2]
  rw [if_neg (by omega : ¬(2 = 0)), if_pos (Or.inl (by norm_num : (0:ℚ) ≤ 2))]
  rw [show [(1:ℚ)].length = 1 from rfl]
  rw [if_neg (by omega : ¬(1 = 0)), if_pos (Or.inl (by norm_num : (0:ℚ) ≤ 2))]
  intro h
  have h2 := Option.some.inj h
  have hb : (((2 : ℚ) : ℝ)) = (2 : ℝ) := by norm_num
  rw [hb] at h2
  have hcast2 : (((2 : ℕ) : ℝ)) = (2 : ℝ) := by norm_num
  have hcast1 : (((1 : ℕ) : ℝ)) = (1 : ℝ) := by norm_num
  rw [hcast2, hcast1] at h2
  have heq : (2 : ℝ) ^ ((6125 : ℝ) / 2) = (2 : ℝ) ^ ((6125 : ℝ) / 1) := by linarith
  have hlt : (2 : ℝ) ^ ((6125 : ℝ) / 2) < (2 : ℝ) ^ ((6125 : ℝ) / 1) :=
    (Real.rpow_lt_rpow_left_iff (by norm_num : (1 : ℝ) < 2)).mpr (by norm_num)
  exact absurd heq (ne_of_lt hlt)

theorem omul_none_right (x : Option ℚ) : omul x none = none := by cases x <;> rfl

theorem osub_none_left (x : Option ℚ) : osub none x = none := by cases x <;> rfl

theorem atO_map_some (closes : List ℚ) (k : ℕ) (h : k < closes.length) :
    atO (closes.map some) k = some closes[k] := by
  unfold atO
  rw [List.getElem?_map, List.getElem?_eq_getElem h]
  rfl

theorem prodSkipNA_replicate_zero (k : ℕ) :
    prodSkipNA (List.replicate k (some 0)) = 1 := by
  induction k with
  | zero => rfl
  | succ k ih => simp [List.replicate_succ, prodSkipNA, ih]

theorem dropna_replicate_some (k : ℕ) (v : ℚ) :
    dropna (List.replicate k (some v)) = List.replicate k v := by
  rw [← List.map_replicate]
  exact dropna_map_some _

theorem varSkipNA_replicate_zero (k : ℕ) (hk : 2 ≤ k) :
    varSkipNA (List.replicate k (some 0)) = some 0 := by
  unfold varSkipNA
  rw [dropna_replicate_some]
  rw [if_neg (by simp; omega)]
  congr 1
  rw [List.sum_replicate]
  simp

theorem cumprodFrom_ones (k : ℕ) (p : ℚ) :
    cumprodFrom p (List.replicate k (some 1)) = List.replicate k (some p) := by
  induction k generalizing p with
  | zero => rfl
  | succ k ih => simp [List.replicate_succ, cumprodFrom, ih]

theorem cummaxFrom_ones (k : ℕ) :
    (cummaxFrom none (List.replicate k (some 1)) = List.replicate k (some 1)) ∧
    (cummaxFrom (some 1) (List.replicate k (some 1)) = List.replicate k (some 1)) := by
  induction k with
  | zero => exact ⟨rfl, rfl⟩
  | succ k ih => simp [List.replicate_succ, cummaxFrom, ih.2]

theorem foldl_min_self (a : ℚ) (k : ℕ) :
    List.foldl min a (List.replicate k a) = a := by
  induction k with
  | zero => rfl
  | succ k ih => simp [List.replicate_succ, ih]

theorem min?_replicate_succ (k : ℕ) (a : ℚ) :
    (List.replicate (k + 1) a).min? = some a := by
  rw [List.replicate_succ, List.min?_cons', foldl_min_self]

/-- C8 (amended): for every series shorter than the long window (50) with
at least 3 bars of positive closes — every signal is 0; the long average
is undefined at every bar; the *short* average is additionally undefined
only when the series is also shorter than 20 bars; the position stays
flat; and the simple-variant metrics record is still produced with
degenerate values (annualized return 0, volatility 0, undefined Sharpe,
drawdown 0) rather than by raising an error.  The enhanced-variant
metrics, by contrast, are undefined on a single-bar series (its `|R| = 0`
division is fatal). -/
theorem C8_short_series_degrades (closes : List ℚ) (h50 : closes.length < 50)
    (h3 : 3 ≤ closes.length) (hpos : ∀ x ∈ closes, 0 < x) :
    (∀ i, signalOf closes i = 0) ∧
    (∀ i, sma 50 closes i = none) ∧
    (closes.length < 20 → ∀ i, sma 20 closes i = none) ∧
    (∀ i, position closes i = 0) ∧
    (calcSimpleMetrics closes).annStrategy = some 0 ∧
    (calcSimpleMetrics closes).stratVol = some 0 ∧
    (calcSimpleMetrics closes).sharpe = none ∧
    (calcSimpleMetrics closes).maxDD = some 0 ∧
    (∀ c : ℚ, annPortfolioOf (pctChangeO [some c]) = none) := by
  have hsma50 : ∀ i, sma 50 closes i = none := by
    intro i
    unfold sma
    rw [if_neg]
    rintro ⟨h1, h2⟩
    omega
  have hsig : ∀ i, signalOf closes i = 0 := by
    intro i
    unfold signalOf signalFromCols
    rcases Nat.eq_zero_or_pos i with h0 | h0
    · rw [if_pos h0]
    · rw [if_neg (by omega)]
      simp [atO_smaCol, hsma50, nanGT_none_right, nanLT_none_right]
  have hpos0 : ∀ i, position closes i = 0 := by
    intro i
    induction i with
    | zero => rfl
    | succ k ih => simp [position, hsig, ih]
  obtain ⟨m, hm⟩ : ∃ m, closes.length = m + 1 := ⟨closes.length - 1, by omega⟩
  have hm2 : 2 ≤ m := by omega
  have hpc : ∀ j, j + 1 < closes.length →
      ∃ r, atO (pctChangeQ closes) (j + 1) = some r := by
    intro j hj
    unfold pctChangeQ pctChangeO
    rw [List.length_map, atO_map_range_lt hj]
    rw [if_neg (by omega)]
    rw [atO_map_some closes (j + 1) hj, show (j + 1 - 1) = j from rfl,
      atO_map_some closes j (by omega)]
    have hb : closes[j] ≠ 0 := ne_of_gt (hpos _ (List.getElem_mem _))
    exact ⟨closes[j + 1] / closes[j] - 1, by simp [odiv, osub, hb]⟩
  have hstrat : stratReturnsCol closes = none :: List.replicate m (some 0) := by
    unfold stratReturnsCol
    rw [hm, List.range_succ_eq_map, List.map_cons, List.map_map]
    congr 1
    · show omul (atO (pctChangeQ closes) 0) (positionShiftAt closes 0) = none
      unfold positionShiftAt
      rw [if_pos rfl]
      exact omul_none_right _
    · rw [List.eq_replicate_iff]
      refine ⟨by simp, ?_⟩
      intro b hb
      obtain ⟨j, hj, rfl⟩ := List.mem_map.mp hb
      have hj2 : j < m := by simpa using hj
      show omul (atO (pctChangeQ closes) (j + 1)) (positionShiftAt closes (j + 1)) = some 0
      obtain ⟨r, hr⟩ := hpc j (by omega)
      have hps : positionShiftAt closes (j + 1) = some 0 := by
        unfold positionShiftAt
        rw [if_neg (by omega), show (j + 1 - 1) = j from rfl, hpos0 j]
        norm_num
      rw [hr, hps]
      show some (r * 0) = some 0
      rw [mul_zero]
  have hann : annualizedO (stratReturnsCol closes) closes.length = some 0 := by
    apply annualizedO_of_prod_one
    · rw [hstrat]
      show prodSkipNA (List.replicate m (some 0)) = 1
      exact prodSkipNA_replicate_zero m
    · omega
  have hvar : varSkipNA (stratReturnsCol closes) = some 0 := by
    rw [hstrat]
    have hdr : varSkipNA (none :: List.replicate m (some (0 : ℚ)))
        = varSkipNA (List.replicate m (some 0)) := by
      unfold varSkipNA
      rw [show dropna (none :: List.replicate m (some (0 : ℚ)))
        = dropna (List.replicate m (some 0)) from by simp [dropna, List.filterMap_cons]]
    rw [hdr, varSkipNA_replicate_zero m hm2]
  have hvol : volOf (stratReturnsCol closes) = some 0 := by
    unfold volOf
    rw [hvar]
    simp
  have hsharpe : sharpeOf (annualizedO (stratReturnsCol closes) closes.length)
      (volOf (stratReturnsCol closes)) = none := by
    rw [hann, hvol]
    show (if (0 : ℝ) = 0 then none else some (((0 : ℝ) - 0.06) / 0)) = none
    rw [if_pos rfl]
  have hmdd : maxDrawdownOf (cumOnePlus (stratReturnsCol closes)) = some 0 := by
    rw [hstrat]
    have h1 : cumOnePlus (none :: List.replicate m (some 0))
        = none :: List.replicate m (some 1) := by
      unfold cumOnePlus
      rw [List.map_cons, List.map_replicate]
      rw [show Option.map (fun r : ℚ => 1 + r) (some 0) = some 1 from by norm_num]
      show none :: cumprodFrom 1 (List.replicate m (some 1)) = _
      rw [cumprodFrom_ones]
    rw [h1]
    unfold maxDrawdownOf
    have h2 : cummaxO (none :: List.replicate m (some 1))
        = none :: List.replicate m (some 1) := by
      unfold cummaxO
      show none :: cummaxFrom none (List.replicate m (some 1)) = _
      rw [(cummaxFrom_ones m).1]
    rw [h2, List.zip_cons_cons, List.zip_replicate, min_self, List.map_cons,
      List.map_replicate]
    rw [show osub (odiv none none) (some (1 : ℚ)) = none from rfl]
    rw [show osub (odiv (some (1 : ℚ)) (some 1)) (some 1) = some 0 from by
      norm_num [odiv, osub]]
    unfold minSkipNA
    rw [show dropna (none :: List.replicate m (some (0 : ℚ)))
      = dropna (List.replicate m (some 0)) from by simp [dropna, List.filterMap_cons]]
    rw [dropna_replicate_some]
    obtain ⟨k, rfl⟩ : ∃ k, m = k + 1 := ⟨m - 1, by omega⟩
    exact min?_replicate_succ k 0
  refine ⟨hsig, hsma50, ?_, hpos0, hann, hvol, hsharpe, hmdd, ?_⟩
  · intro h20 i
    unfold sma
    rw [if_neg]
    rintro ⟨h1, h2⟩
    omega
  · intro c
    have hone : pctChangeO [some c] = [none] := by
      have : List.range 1 = [0] := rfl
      simp [pctChangeO, this]
    rw [hone]
    unfold annPortfolioOf annualizedO
    rw [if_pos (by simp [dropna])]

/-- C8 counterexample to the claim as stated: on a 20-bar series (shorter
than the 50-bar long window) the *short* moving average is defined from
bar 19 onward, so "both moving averages stay undefined for the whole run"
is false. -/
theorem C8_short_sma_becomes_defined :
    seriesB.length < 50 ∧ sma 20 seriesB 19 = some 100 := by
  constructor
  · decide
  · with_unfolding_all decide

/-- C8 witness: the 5-bar constant series at price 100. -/
theorem C8_short_series_degrades_witness :
    ((List.replicate 5 (100 : ℚ)).length < 50 ∧
      3 ≤ (List.replicate 5 (100 : ℚ)).length ∧
      (∀ x ∈ List.replicate 5 (100 : ℚ), 0 < x)) ∧
    ((∀ i, signalOf (List.replicate 5 (100 : ℚ)) i = 0) ∧
      (∀ i, sma 50 (List.replicate 5 (100 : ℚ)) i = none) ∧
      ((List.replicate 5 (100 : ℚ)).length < 20 →
        ∀ i, sma 20 (List.replicate 5 (100 : ℚ)) i = none) ∧
      (∀ i, position (List.replicate 5 (100 : ℚ)) i = 0) ∧
      (calcSimpleMetrics (List.replicate 5 (100 : ℚ))).annStrategy = some 0 ∧
      (calcSimpleMetrics (List.replicate 5 (100 : ℚ))).stratVol = some 0 ∧
      (calcSimpleMetrics (List.replicate 5 (100 : ℚ))).sharpe = none ∧
      (calcSimpleMetrics (List.replicate 5 (100 : ℚ))).maxDD = some 0 ∧
      (∀ c : ℚ, annPortfolioOf (pctChangeO [some c]) = none)) :=
  ⟨⟨by decide, by decide, by with_unfolding_all decide⟩,
    C8_short_series_degrades (List.replicate 5 (100 : ℚ)) (by decide) (by decide)
      (by with_unfolding_all decide)⟩
